import Mathlib

/-!
Verification development for the schema-to-diagram converter.

The Python source (`main.py`) is shallowly embedded below: the schema model
(`PostgresSchema`) becomes an association list with Python-dict semantics
(insertion order preserved, assignment overwrites in place), the mutating
methods become pure state transformers, the layout loop over tables becomes a
fold over an explicit generator state, and the relationship-drawing loop
becomes an `Except`-valued function in which an unguarded dictionary access
(`schema.tables[target]`) is modelled as a `KeyError` value. Generated
identifiers (uuid-based in the source, where only distinctness matters) are
modelled by a counter threaded through generation in the order the source
calls its id generator.
-/

-- Dimension constants (source lines 8-14).

def WIDTH_KEY : Nat := 40

def WIDTH_NAME : Nat := 150

def WIDTH_TYPE : Nat := 110

def TABLE_WIDTH : Nat := WIDTH_KEY + WIDTH_NAME + WIDTH_TYPE

def ROW_HEIGHT : Nat := 30

def GRID_PADDING_X : Nat := 340

def MAX_COLS_PER_ROW : Nat := 3

-- Row style constants (source lines 21-30); only these two are decision-relevant
-- (the separator is the visually distinct style given to the last primary-key row).

def STYLE_ROW_NORMAL : String :=
  "shape=tableRow;horizontal=0;startSize=0;swimlaneHead=0;swimlaneBody=0;fillColor=none;collapsible=0;dropTarget=0;points=[[0,0.5],[1,0.5]];portConstraint=eastwest;top=0;left=0;right=0;bottom=0;html=1;"

def STYLE_ROW_SEPARATOR : String :=
  "shape=tableRow;horizontal=0;startSize=0;swimlaneHead=0;swimlaneBody=0;fillColor=none;collapsible=0;dropTarget=0;points=[[0,0.5],[1,0.5]];portConstraint=eastwest;top=0;left=0;right=0;bottom=1;html=1;"

-- Identifier normalization (source `PostgresSchema._clean_name`, lines 103-108):
-- strip surrounding whitespace, remove every double-quote character, and if a
-- dot remains keep only the final dot-separated segment.

def trimChars (l : List Char) : List Char :=
  ((l.dropWhile Char.isWhitespace).reverse.dropWhile Char.isWhitespace).reverse

def afterLastDot (l : List Char) : List Char :=
  (l.reverse.takeWhile (fun c => c ≠ '.')).reverse

def cleanCore (l : List Char) : List Char :=
  let t := trimChars l
  let t2 := t.filter (fun c => c ≠ '"')
  if '.' ∈ t2 then afterLastDot t2 else t2

def _clean_name (s : String) : String := String.mk (cleanCore s.data)

def trimName (s : String) : String := String.mk (trimChars s.data)

-- Schema model (source lines 54-108). Python dicts are association lists with
-- insertion order preserved; Python sets are duplicate-free lists in insertion
-- order (iteration order of Python string sets is unspecified, so only
-- membership facts about `pk`/`uq` are order-faithful).

structure Column where
  name : String
  type : String
  not_null : Bool
deriving DecidableEq, Repr

structure Table where
  columns : List Column
  pk : List String
  fk : List (String × String)
  uq : List String
deriving DecidableEq, Repr

structure PostgresSchema where
  tables : List (String × Table)
deriving DecidableEq, Repr

def emptyTable : Table := ⟨[], [], [], []⟩

def lookupTable (s : PostgresSchema) (n : String) : Option Table :=
  List.lookup n s.tables

-- Python dict assignment `d[k] = v`: overwrite in place if the key exists,
-- otherwise append at the end.

def dictInsert {α : Type} (k : String) (v : α) (l : List (String × α)) :
    List (String × α) :=
  if l.any (fun p => p.1 == k) then
    l.map (fun p => if p.1 = k then (k, v) else p)
  else l ++ [(k, v)]

-- Python set add: append if not already a member.

def setInsert (x : String) (l : List String) : List String :=
  if x ∈ l then l else l ++ [x]

def add_table (s : PostgresSchema) (name : String) : PostgresSchema × String :=
  let n := _clean_name name
  match lookupTable s n with
  | some _ => (s, n)
  | none => (⟨s.tables ++ [(n, emptyTable)]⟩, n)

def updateTable (s : PostgresSchema) (n : String) (f : Table → Table) :
    PostgresSchema :=
  ⟨s.tables.map (fun p => if p.1 == n then (p.1, f p.2) else p)⟩

-- Whitespace collapsing used on column types (`re.sub(r'\s+', ' ', t).strip()`).

def squeezeWs (l : List Char) : List Char :=
  (l.foldr
    (fun c acc =>
      if c.isWhitespace then
        (true, if acc.1 then acc.2 else ' ' :: acc.2)
      else (false, c :: acc.2))
    (false, ([] : List Char))).2

def collapseWs (s : String) : String := String.mk (trimChars (squeezeWs s.data))

def add_column (s : PostgresSchema) (table col_name col_type : String)
    (is_not_null : Bool) : PostgresSchema :=
  let t := _clean_name table
  let c := _clean_name col_name
  match lookupTable s t with
  | none => s
  | some _ =>
      updateTable s t (fun tb =>
        { tb with columns := tb.columns ++ [⟨c, collapseWs col_type, is_not_null⟩] })

def get_column_info (s : PostgresSchema) (table col_name : String) :
    Option Column :=
  let t := _clean_name table
  let c := _clean_name col_name
  match lookupTable s t with
  | none => none
  | some tb => tb.columns.find? (fun col => col.name == c)

def add_pk (s : PostgresSchema) (table : String) (cols : List String) :
    PostgresSchema :=
  let t := _clean_name table
  match lookupTable s t with
  | none => s
  | some _ =>
      updateTable s t (fun tb =>
        { tb with pk := cols.foldl (fun acc c => setInsert (_clean_name c) acc) tb.pk })

def add_fk (s : PostgresSchema) (table col ref_table : String) : PostgresSchema :=
  let t := _clean_name table
  let c := _clean_name col
  let r := _clean_name ref_table
  match lookupTable s t with
  | none => s
  | some _ => updateTable s t (fun tb => { tb with fk := dictInsert c r tb.fk })

def add_uq (s : PostgresSchema) (table : String) (cols : List String) :
    PostgresSchema :=
  let t := _clean_name table
  match lookupTable s t with
  | none => s
  | some _ =>
      updateTable s t (fun tb =>
        { tb with uq := cols.foldl (fun acc c => setInsert (_clean_name c) acc) tb.uq })

-- Cardinality inference (source `get_cardinality`, lines 194-221). The source
-- indexes `schema.tables[source_table]` directly, which raises on a missing
-- table; that fallibility is modelled with `Option`.

def get_cardinality (s : PostgresSchema) (source_table source_col : String)
    (_target_table : String) : Option (String × String) :=
  match lookupTable s source_table with
  | none => none
  | some tb =>
      let is_unique_fk := tb.pk.contains source_col || tb.uq.contains source_col
      let label_source := if is_unique_fk then ("0..1") else ("0..N")
      let col_info := get_column_info s source_table source_col
      let is_not_null := match col_info with
        | some ci => ci.not_null
        | none => false
      let label_target := if is_not_null then ("1") else ("0..1")
      some (label_source, label_target)

-- Layout engine (source `main`, lines 251-381). Each table vertex and each
-- column row consumes generated identifiers in the order the source generates
-- them (one for the table, then four per row: the row and its three sub-cells).

structure RowCell where
  rid : Nat
  colName : String
  style : String
  yOff : Nat
deriving DecidableEq, Repr

structure TableCell where
  tid : Nat
  name : String
  x : Nat
  y : Nat
  height : Nat
deriving DecidableEq, Repr

-- Stable partition of the declared columns by primary-key membership
-- (source lines 268-275).

def partitionCols (columns : List Column) (pks : List String) :
    List Column × List Column :=
  columns.foldl
    (fun acc col =>
      if pks.contains col.name then (acc.1 ++ [col], acc.2)
      else (acc.1, acc.2 ++ [col]))
    ([], [])

def sortedColumns (columns : List Column) (pks : List String) : List Column :=
  (partitionCols columns pks).1 ++ (partitionCols columns pks).2

-- `last_pk_index = len(pk_cols) - 1 if pk_cols else -1` (source line 276).

def lastPkIndex (columns : List Column) (pks : List String) : Int :=
  if (partitionCols columns pks).1.isEmpty then -1
  else ((partitionCols columns pks).1.length : Int) - 1

def tableHeight (td : Table) : Nat :=
  (sortedColumns td.columns td.pk).length * ROW_HEIGHT + ROW_HEIGHT

-- Row generation loop (source lines 303-373): emits one row cell per sorted
-- column, assigns the row id into the per-table column-to-row map (plain dict
-- assignment, so a repeated column name overwrites the earlier row id), and
-- styles exactly the row whose index equals `last_pk_index` as the separator.

def genRows (pks : List String) (lp : Int) :
    List Column → Nat → Nat → Nat → List (String × Nat) →
      Nat × List (String × Nat) × List RowCell
  | [], nid, _, _, m => (nid, m, [])
  | col :: rest, nid, idx, yoff, m =>
      let style := if pks.contains col.name && ((idx : Int) == lp) then
          STYLE_ROW_SEPARATOR
        else STYLE_ROW_NORMAL
      let cell : RowCell := ⟨nid, col.name, style, yoff⟩
      let res := genRows pks lp rest (nid + 4) (idx + 1) (yoff + ROW_HEIGHT)
        (dictInsert col.name nid m)
      (res.1, res.2.1, cell :: res.2.2)

structure GenState where
  nextId : Nat
  tableColIdMap : List (String × List (String × Nat))
  tableIdMap : List (String × Nat)
  tablePositions : List (String × (Nat × Nat))
  tableCells : List TableCell
  rowCells : List (String × RowCell)
  current_x : Nat
  current_y : Nat
  col_counter : Nat
  max_height_in_row : Nat
deriving DecidableEq, Repr

def initGenState : GenState :=
  { nextId := 1, tableColIdMap := [], tableIdMap := [], tablePositions := [],
    tableCells := [], rowCells := [], current_x := 40, current_y := 40,
    col_counter := 0, max_height_in_row := 0 }

def genTable (st : GenState) (e : String × Table) : GenState :=
  let table_name := e.1
  let td := e.2
  let sorted_columns := sortedColumns td.columns td.pk
  let last_pk_index := lastPkIndex td.columns td.pk
  let table_height := sorted_columns.length * ROW_HEIGHT + ROW_HEIGHT
  let mh := if st.max_height_in_row < table_height then table_height
    else st.max_height_in_row
  let table_id := st.nextId
  let r := genRows td.pk last_pk_index sorted_columns (st.nextId + 1) 0 ROW_HEIGHT []
  let st1 : GenState :=
    { nextId := r.1,
      tableColIdMap := dictInsert table_name r.2.1 st.tableColIdMap,
      tableIdMap := dictInsert table_name table_id st.tableIdMap,
      tablePositions := dictInsert table_name (st.current_x, st.current_y)
        st.tablePositions,
      tableCells := st.tableCells ++
        [⟨table_id, table_name, st.current_x, st.current_y, table_height⟩],
      rowCells := st.rowCells ++ r.2.2.map (fun c => (table_name, c)),
      current_x := st.current_x + GRID_PADDING_X,
      current_y := st.current_y,
      col_counter := st.col_counter + 1,
      max_height_in_row := mh }
  if MAX_COLS_PER_ROW ≤ st1.col_counter then
    { st1 with
      col_counter := 0
      current_x := 40
      current_y := st.current_y + mh + 50
      max_height_in_row := 0 }
  else st1

def generateAll (s : PostgresSchema) : GenState :=
  s.tables.foldl genTable initGenState

-- Relationship placement (source lines 384-453). The unguarded
-- `schema.tables[target_table_name]` access (line 389) is modelled as a
-- `KeyError` when the referenced table is absent; the two `.get` lookups and
-- the `if source_row_id and target_row_id` guard are modelled with `Option`.

structure Edge where
  eid : Nat
  source : Nat
  target : Nat
  label_source : String
  label_target : String
  exit_left : Bool
deriving DecidableEq, Repr

def resolveTargetAnchor (s : PostgresSchema) (g : GenState)
    (target_table_name : String) : Except String (Option Nat) :=
  match lookupTable s target_table_name with
  | none => Except.error ((("KeyError: ") ++ target_table_name))
  | some ttd =>
      let target_row_id : Option Nat :=
        match ttd.pk with
        | [] => none
        | p :: _ =>
            List.lookup p ((List.lookup target_table_name g.tableColIdMap).getD [])
      Except.ok (match target_row_id with
        | some r => some r
        | none => List.lookup target_table_name g.tableIdMap)

def drawFks (s : PostgresSchema) (g : GenState) (table_name : String) :
    List (String × String) → Nat → Except String (Nat × List Edge)
  | [], nid => Except.ok (nid, [])
  | (col_name, target_table_name) :: rest, nid =>
      let source_row_id :=
        List.lookup col_name ((List.lookup table_name g.tableColIdMap).getD [])
      match resolveTargetAnchor s g target_table_name with
      | Except.error e => Except.error e
      | Except.ok target_row_id =>
          match source_row_id, target_row_id with
          | some sr, some tr =>
              match get_cardinality s table_name col_name target_table_name with
              | none => Except.error ((("KeyError: ") ++ table_name))
              | some (ls, lt) =>
                  let src_pos := (List.lookup table_name g.tablePositions).getD (0, 0)
                  let tgt_pos :=
                    (List.lookup target_table_name g.tablePositions).getD (0, 0)
                  let ex_left := decide (tgt_pos.1 < src_pos.1)
                  let e : Edge := ⟨nid, sr, tr, ls, lt, ex_left⟩
                  match drawFks s g table_name rest (nid + 3) with
                  | Except.error err => Except.error err
                  | Except.ok (nid2, es) => Except.ok (nid2, e :: es)
          | _, _ =>
              drawFks s g table_name rest nid

def drawAll (s : PostgresSchema) (g : GenState) :
    List (String × Table) → Nat → Except String (List Edge)
  | [], _ => Except.ok []
  | (tn, td) :: rest, nid =>
      match drawFks s g tn td.fk nid with
      | Except.error e => Except.error e
      | Except.ok (nid2, es) =>
          match drawAll s g rest nid2 with
          | Except.error e => Except.error e
          | Except.ok es2 => Except.ok (es ++ es2)

def runDiagram (s : PostgresSchema) : Except String (GenState × List Edge) :=
  let g := generateAll s
  match drawAll s g s.tables g.nextId with
  | Except.error e => Except.error e
  | Except.ok es => Except.ok (g, es)

-- Process exit behavior (source `main`, lines 230-239, plus the unprotected
-- generation phase after the try/except). Reading and parsing the input is the
-- external boundary, modelled as an `Except` input; `sys.exit(0)` on the
-- zero-table path is `successNoTables`, the `except` path is `failure`, and an
-- unhandled exception escaping the generation phase is `crash`.

inductive ExitResult where
  | failure : ExitResult
  | successNoTables : ExitResult
  | success : ExitResult
  | crash : String → ExitResult
deriving DecidableEq, Repr

def mainOutcome (readResult : Except String PostgresSchema) : ExitResult :=
  match readResult with
  | Except.error _ => ExitResult.failure
  | Except.ok schema =>
      if schema.tables.isEmpty then ExitResult.successNoTables
      else
        match runDiagram schema with
        | Except.error e => ExitResult.crash e
        | Except.ok _ => ExitResult.success

-- Facts about identifier normalization.

lemma mem_of_mem_trimChars {a : Char} {l : List Char} (h : a ∈ trimChars l) :
    a ∈ l := by
  unfold trimChars at h
  rw [List.mem_reverse] at h
  have h2 := (List.dropWhile_sublist Char.isWhitespace).mem h
  rw [List.mem_reverse] at h2
  exact (List.dropWhile_sublist Char.isWhitespace).mem h2

lemma mem_of_mem_afterLastDot {a : Char} {l : List Char}
    (h : a ∈ afterLastDot l) : a ∈ l := by
  unfold afterLastDot at h
  rw [List.mem_reverse] at h
  have h2 := (List.takeWhile_sublist (fun c => c ≠ '.')).mem h
  rw [List.mem_reverse] at h2
  exact h2

lemma dot_not_mem_afterLastDot (l : List Char) : '.' ∉ afterLastDot l := by
  intro h
  unfold afterLastDot at h
  rw [List.mem_reverse] at h
  have := List.mem_takeWhile_imp h
  simp at this

lemma quote_not_mem_cleanCore (l : List Char) : '"' ∉ cleanCore l := by
  intro h
  unfold cleanCore at h
  set t2 := (trimChars l).filter (fun c => c ≠ '"') with ht2
  have h2 : '"' ∈ t2 := by
    by_cases hd : '.' ∈ t2
    · rw [if_pos hd] at h
      exact mem_of_mem_afterLastDot h
    · rwa [if_neg hd] at h
  rw [ht2, List.mem_filter] at h2
  simp at h2

lemma dot_not_mem_cleanCore (l : List Char) : '.' ∉ cleanCore l := by
  intro h
  unfold cleanCore at h
  set t2 := (trimChars l).filter (fun c => c ≠ '"') with ht2
  by_cases hd : '.' ∈ t2
  · rw [if_pos hd] at h
    exact dot_not_mem_afterLastDot _ h
  · rw [if_neg hd] at h
    exact hd h

lemma cleanCore_cleanCore (l : List Char) :
    cleanCore (cleanCore l) = trimChars (cleanCore l) := by
  have hq : '"' ∉ cleanCore l := quote_not_mem_cleanCore l
  have hd : '.' ∉ cleanCore l := dot_not_mem_cleanCore l
  have hqt : '"' ∉ trimChars (cleanCore l) := fun h => hq (mem_of_mem_trimChars h)
  have hdt : '.' ∉ trimChars (cleanCore l) := fun h => hd (mem_of_mem_trimChars h)
  have hfilter : (trimChars (cleanCore l)).filter (fun c => c ≠ '"')
      = trimChars (cleanCore l) := by
    apply List.filter_eq_self.mpr
    intro a ha
    simp only [ne_eq, decide_eq_true_eq]
    intro hcontra
    exact hqt (hcontra ▸ ha)
  generalize hgen : cleanCore l = r at hdt hfilter ⊢
  unfold cleanCore
  simp only [hfilter]
  rw [if_neg hdt]

-- Example schemas used in concrete counterexamples and failing-input checks.
-- `ex1S`: one table "a" with one column "x" whose foreign key references the
-- absent table "b" (a dangling reference target).

def ex1S : PostgresSchema :=
  ⟨[(("a"), ⟨[⟨("x"), ("integer"), false⟩], [], [(("x"), ("b"))], []⟩)]⟩

/-- Claim C1. The claim states that a foreign key whose referenced table is
absent from the schema yields no edge and no failure at relationship-placement
time. The code instead performs an unguarded `schema.tables[target_table_name]`
access before any of its `None`-tolerant fallbacks, so the stage aborts with a
`KeyError` on such a schema: the failure is evaluated here on the concrete
dangling-target schema `ex1S`. -/
theorem c1_dangling_target_keyerror :
    lookupTable ex1S ("b") = none ∧
    runDiagram ex1S = Except.error (("KeyError: b")) := by
  constructor
  · rfl
  · rfl

/-- Claim C2 (counterexample). Normalization is not idempotent as claimed: on
"a. b" the first pass keeps the final qualifier segment " b" (with its leading
space, exposed only after the initial trim), and a second pass trims it to
"b". -/
theorem c2_counterexample :
    _clean_name (_clean_name ("a. b")) ≠ _clean_name ("a. b") := by
  decide

/-- Claim C2 (amended). A single normalization pass is idempotent only up to a
final trim: re-normalizing a normalized name returns exactly its
whitespace-trimmed form (quote removal and qualifier splitting can expose
surrounding whitespace that only the second pass trims), so a normalized name
is a fixed point precisely when it carries no surrounding whitespace. A quoted
name strips its quotes and a qualified name keeps only its final segment. -/
theorem c2_clean_name_idempotent_up_to_trim :
    (∀ s : String, _clean_name (_clean_name s) = trimName (_clean_name s)) ∧
    _clean_name ("\"abc\"") = ("abc") ∧
    _clean_name ("public.users") = ("users") := by
  refine ⟨fun s => ?_, by decide, by decide⟩
  show String.mk (cleanCore (String.mk (cleanCore s.data)).data) = _
  simp only [trimName]
  exact congrArg String.mk (cleanCore_cleanCore s.data)

-- `ex3S`: table "t" with no primary key at all, but a unique index on its
-- foreign-key column "x".

def ex3S : PostgresSchema :=
  ⟨[(("t"), ⟨[⟨("x"), ("integer"), false⟩], [], [(("x"), ("p"))], [("x")]⟩)]⟩

/-- Claim C3 (counterexample). The claim asserts child-side label "0..N" for
every foreign key out of a table with an empty pk set, regardless of any other
recorded facts. But `get_cardinality` also consults the uq set: in `ex3S` the
pk set is empty yet the unique-indexed foreign-key column "x" yields "0..1". -/
theorem c3_counterexample :
    (lookupTable ex3S ("t")).map Table.pk = some [] ∧
    (get_cardinality ex3S ("t") ("x") ("p")).map Prod.fst = some ("0..1") ∧
    (get_cardinality ex3S ("t") ("x") ("p")).map Prod.fst ≠ some ("0..N") := by
  refine ⟨rfl, rfl, by decide⟩

/-- Claim C3 (amended). For a child table with an empty pk set, every foreign
key originating from it whose column is also not in the table's uq set gets
child-side label "0..N" (a unique index on the foreign-key column yields "0..1"
even without any primary key). -/
theorem c3_no_pk_gives_zero_to_many (s : PostgresSchema)
    (child col tgt : String) (td : Table)
    (h1 : lookupTable s child = some td) (h2 : td.pk = [])
    (h3 : col ∉ td.uq) (_h4 : (col, tgt) ∈ td.fk) :
    (get_cardinality s child col tgt).map Prod.fst = some ("0..N") := by
  unfold get_cardinality
  rw [h1]
  simp [h2, h3]

def ex3W : PostgresSchema :=
  ⟨[(("t"), ⟨[⟨("x"), ("integer"), false⟩], [], [(("x"), ("p"))], []⟩)]⟩

/-- Witness for the amended claim C3, at a table with no primary key and no
unique index. -/
theorem c3_no_pk_gives_zero_to_many_witness :
    (get_cardinality ex3W ("t") ("x") ("p")).map Prod.fst = some ("0..N") :=
  c3_no_pk_gives_zero_to_many ex3W ("t") ("x") ("p")
    ⟨[⟨("x"), ("integer"), false⟩], [], [(("x"), ("p"))], []⟩
    (by decide) rfl (by decide) (by decide)

-- `ex8S`: a readable input whose parsed schema is nonempty but holds a
-- dangling foreign-key target, so the generation phase after the try/except
-- block raises an unhandled exception.

def ex8S : PostgresSchema :=
  ⟨[(("t"), ⟨[⟨("x"), ("integer"), true⟩], [], [(("x"), ("missing"))], []⟩)]⟩

/-- Claim C8. An unreadable input exits with failure, and a readable input with
zero tables warns and exits with success — both as claimed. But the claimed
"success otherwise" is violated: a readable nonempty schema whose foreign key
references an absent table crashes with an unhandled `KeyError` after the
try/except block instead of exiting successfully. -/
theorem c8_exit_behavior :
    (∀ e : String, mainOutcome (Except.error e) = ExitResult.failure) ∧
    mainOutcome (Except.ok ⟨[]⟩) = ExitResult.successNoTables ∧
    mainOutcome (Except.ok ex8S) = ExitResult.crash (("KeyError: missing")) := by
  refine ⟨fun e => rfl, rfl, rfl⟩

/-- Claim C4. For a schema containing the child table, `get_cardinality`
returns child-side "0..1" exactly when the foreign-key column is in the child
table's pk set or uq set (and "0..N" otherwise), and parent-side "1" exactly
when the looked-up column's not-null flag is true (and "0..1" otherwise,
including when no such column exists). The embedding is a pure function, so it
has no side effects on the schema by construction. -/
theorem c4_cardinality_labels (s : PostgresSchema) (child col tgt : String)
    (td : Table) (h : lookupTable s child = some td) :
    get_cardinality s child col tgt =
      some ((if col ∈ td.pk ∨ col ∈ td.uq then ("0..1") else ("0..N")),
            (match get_column_info s child col with
             | some ci => if ci.not_null then ("1") else ("0..1")
             | none => ("0..1"))) := by
  unfold get_cardinality
  rw [h]
  by_cases hc : col ∈ td.pk ∨ col ∈ td.uq
  · rcases hc with hc | hc
    · simp [hc]
      cases hinfo : get_column_info s child col <;> simp
    · simp [hc]
      cases hinfo : get_column_info s child col <;> simp
  · push_neg at hc
    simp [hc.1, hc.2]
    cases hinfo : get_column_info s child col <;> simp

def ex4W : PostgresSchema :=
  ⟨[(("parent"), ⟨[⟨("id"), ("integer"), true⟩], [("id")], [], []⟩),
    (("child"),
      ⟨[⟨("id"), ("integer"), true⟩, ⟨("parent_id"), ("integer"), true⟩],
       [("id")], [(("parent_id"), ("parent"))], []⟩),
    (("child2"),
      ⟨[⟨("id"), ("integer"), true⟩, ⟨("parent_id"), ("integer"), false⟩],
       [("id")], [(("parent_id"), ("parent"))], [("parent_id")]⟩)]⟩

/-- Witness for claim C4, at the spec's own example: Child with a NOT NULL
non-unique foreign key gets ("0..N", "1"), Child2 with a nullable
unique-indexed foreign key gets ("0..1", "0..1"). -/
theorem c4_cardinality_labels_witness :
    get_cardinality ex4W ("child") ("parent_id") ("parent")
        = some ((("0..N")), (("1"))) ∧
    get_cardinality ex4W ("child2") ("parent_id") ("parent")
        = some ((("0..1")), (("0..1"))) := by
  constructor
  · rw [c4_cardinality_labels ex4W ("child") ("parent_id") ("parent")
      ⟨[⟨("id"), ("integer"), true⟩, ⟨("parent_id"), ("integer"), true⟩],
       [("id")], [(("parent_id"), ("parent"))], []⟩ (by decide)]
    decide
  · rw [c4_cardinality_labels ex4W ("child2") ("parent_id") ("parent")
      ⟨[⟨("id"), ("integer"), true⟩, ⟨("parent_id"), ("integer"), false⟩],
       [("id")], [(("parent_id"), ("parent"))], [("parent_id")]⟩ (by decide)]
    decide

/-- Claim C9. Each pass-2 constraint operation (`add_pk`, `add_fk`, `add_uq`),
invoked with a normalized table name (a fixed point of `_clean_name`) that is
not present in the schema, returns the schema entirely unchanged and raises no
error (the embedding is total). -/
theorem c9_constraint_ops_noop (s : PostgresSchema) (t : String)
    (cols : List String) (col rt : String)
    (hn : _clean_name t = t) (h : lookupTable s t = none) :
    add_pk s t cols = s ∧ add_fk s t col rt = s ∧ add_uq s t cols = s := by
  refine ⟨?_, ?_, ?_⟩
  · simp only [add_pk, hn, h]
  · simp only [add_fk, hn, h]
  · simp only [add_uq, hn, h]

def ex9W : PostgresSchema :=
  ⟨[(("a"), ⟨[⟨("x"), ("integer"), false⟩], [], [], []⟩)]⟩

/-- Witness for claim C9: constraint statements naming the absent table "b"
leave the one-table schema untouched. -/
theorem c9_constraint_ops_noop_witness :
    add_pk ex9W ("b") [("c")] = ex9W ∧
    add_fk ex9W ("b") ("c") ("d") = ex9W ∧
    add_uq ex9W ("b") [("c")] = ex9W :=
  c9_constraint_ops_noop ex9W ("b") [("c")] ("c") ("d") (by decide) (by decide)

-- `ex5S`: child "a" references target "p"; "p" has a recorded primary-key
-- column "ghost" that was never declared as a column of "p", so "ghost" has no
-- generated row.

def ex5S : PostgresSchema :=
  ⟨[(("a"), ⟨[⟨("x"), ("integer"), false⟩], [], [(("x"), ("p"))], []⟩),
    (("p"), ⟨[⟨("pid"), ("integer"), true⟩], [("ghost")], [], []⟩)]⟩

/-- Claim C5 (counterexample). The claim says the anchor falls back to the
target table's whole-entity position only when the target has no recorded
primary key. In `ex5S` the target "p" does have a recorded primary key
(["ghost"]), yet the emitted edge's target is 6, the whole-table entity id of
"p" (whose only generated row is 7, for the declared column "pid"): the
fallback also fires when the selected primary-key name has no generated row. -/
theorem c5_counterexample :
    (lookupTable ex5S ("p")).map Table.pk = some [("ghost")] ∧
    Except.map (fun pr => pr.2.map (fun e => (e.source, e.target)))
        (runDiagram ex5S) = Except.ok [(2, 6)] ∧
    List.lookup ("p") (generateAll ex5S).tableIdMap = some 6 ∧
    List.lookup ("pid") ((List.lookup ("p") (generateAll ex5S).tableColIdMap).getD [])
        = some 7 := by
  refine ⟨rfl, rfl, rfl, rfl⟩

/-- Claim C5 (amended). For a foreign key whose target table exists in the
schema: when the target's recorded primary-key collection is nonempty and its
first-enumerated name has a generated row, the target anchor is that row; the
anchor falls back to the target's whole-entity position when the target has no
recorded primary key, or when the first-enumerated primary-key name has no
generated row in the target table (a primary-key fact naming an undeclared
column). The Python source enumerates a `set` here, so which recorded name is
"first" is unspecified; the model enumerates in insertion order. -/
theorem c5_target_anchor (s : PostgresSchema) (g : GenState) (t : String)
    (ttd : Table) (h1 : lookupTable s t = some ttd) :
    (∀ p rest r, ttd.pk = p :: rest →
        List.lookup p ((List.lookup t g.tableColIdMap).getD []) = some r →
        resolveTargetAnchor s g t = Except.ok (some r)) ∧
    (∀ p rest, ttd.pk = p :: rest →
        List.lookup p ((List.lookup t g.tableColIdMap).getD []) = none →
        resolveTargetAnchor s g t = Except.ok (List.lookup t g.tableIdMap)) ∧
    (ttd.pk = [] →
        resolveTargetAnchor s g t = Except.ok (List.lookup t g.tableIdMap)) := by
  refine ⟨?_, ?_, ?_⟩
  · intro p rest r hpk hrow
    simp only [resolveTargetAnchor, h1, hpk, hrow]
  · intro p rest hpk hrow
    simp only [resolveTargetAnchor, h1, hpk, hrow]
  · intro hpk
    simp only [resolveTargetAnchor, h1, hpk]

def ex5W : PostgresSchema :=
  ⟨[(("p"), ⟨[⟨("pid"), ("integer"), true⟩], [("pid")], [], []⟩)]⟩

def ex5WT : Table := ⟨[⟨("pid"), ("integer"), true⟩], [("pid")], [], []⟩

/-- Witness for the amended claim C5: with the target's first recorded
primary-key column mapped to row 7, the anchor resolves to row 7. -/
theorem c5_target_anchor_witness :
    resolveTargetAnchor ex5W
      { initGenState with
        tableColIdMap := [(("p"), [(("pid"), 7)])]
        tableIdMap := [(("p"), 6)] }
      ("p") = Except.ok (some 7) :=
  (c5_target_anchor ex5W
      { initGenState with
        tableColIdMap := [(("p"), [(("pid"), 7)])]
        tableIdMap := [(("p"), 6)] }
      ("p") ex5WT (by decide)).1 ("pid") [] 7 rfl (by decide)

-- Facts about the stable partition of columns and the layout cursor.

lemma partitionCols_go (pks : List String) (cols : List Column) :
    ∀ a b : List Column,
      cols.foldl
        (fun acc col =>
          if pks.contains col.name then (acc.1 ++ [col], acc.2)
          else (acc.1, acc.2 ++ [col])) (a, b)
        = (a ++ cols.filter (fun c => pks.contains c.name),
           b ++ cols.filter (fun c => !(pks.contains c.name))) := by
  induction cols with
  | nil => intro a b; simp
  | cons c rest ih =>
      intro a b
      rw [List.foldl_cons, List.filter_cons, List.filter_cons]
      by_cases hc : c.name ∈ pks
      · have hcb : pks.contains c.name = true := by simpa using hc
        rw [if_pos hcb, if_pos hcb, ih (a ++ [c]) b]
        rw [hcb]
        simp
      · have hcb : pks.contains c.name = false := by simpa using hc
        rw [hcb]
        simp only [Bool.false_eq_true, if_false, Bool.not_false, if_true]
        rw [ih a (b ++ [c])]
        simp

lemma partitionCols_eq (cols : List Column) (pks : List String) :
    partitionCols cols pks =
      (cols.filter (fun c => pks.contains c.name),
       cols.filter (fun c => !(pks.contains c.name))) := by
  simpa [partitionCols] using partitionCols_go pks cols [] []

lemma sortedColumns_eq (cols : List Column) (pks : List String) :
    sortedColumns cols pks =
      cols.filter (fun c => pks.contains c.name) ++
        cols.filter (fun c => !(pks.contains c.name)) := by
  rw [sortedColumns, partitionCols_eq]

lemma filter_length_split (pks : List String) (cols : List Column) :
    (cols.filter (fun c => pks.contains c.name)).length +
      (cols.filter (fun c => !(pks.contains c.name))).length = cols.length := by
  induction cols with
  | nil => rfl
  | cons c rest ih =>
      by_cases hc : c.name ∈ pks <;> simp [List.filter_cons, hc] at ih ⊢ <;> omega

lemma sortedColumns_length (cols : List Column) (pks : List String) :
    (sortedColumns cols pks).length = cols.length := by
  rw [sortedColumns_eq, List.length_append, filter_length_split]

lemma genTable_tableCells (st : GenState) (e : String × Table) :
    (genTable st e).tableCells =
      st.tableCells ++
        [⟨st.nextId, e.1, st.current_x, st.current_y, tableHeight e.2⟩] := by
  simp only [genTable, tableHeight]
  split <;> rfl

lemma genTable_x (st : GenState) (e : String × Table) :
    (genTable st e).current_x =
      if MAX_COLS_PER_ROW ≤ st.col_counter + 1 then 40
      else st.current_x + GRID_PADDING_X := by
  simp only [genTable]
  split <;> rfl

lemma genTable_y (st : GenState) (e : String × Table) :
    (genTable st e).current_y =
      if MAX_COLS_PER_ROW ≤ st.col_counter + 1 then
        st.current_y +
          (if st.max_height_in_row < tableHeight e.2 then tableHeight e.2
           else st.max_height_in_row) + 50
      else st.current_y := by
  simp only [genTable, tableHeight]
  split <;> rfl

lemma genTable_counter (st : GenState) (e : String × Table) :
    (genTable st e).col_counter =
      if MAX_COLS_PER_ROW ≤ st.col_counter + 1 then 0 else st.col_counter + 1 := by
  simp only [genTable]
  split <;> rfl

lemma genTable_maxh (st : GenState) (e : String × Table) :
    (genTable st e).max_height_in_row =
      if MAX_COLS_PER_ROW ≤ st.col_counter + 1 then 0
      else if st.max_height_in_row < tableHeight e.2 then tableHeight e.2
        else st.max_height_in_row := by
  simp only [genTable, tableHeight]
  split <;> rfl

/-- Claim C6. Four tables of equal rendered height H are laid out with the
first three on one row at the same y and strictly increasing x (origin 40,
advancing one fixed horizontal stride of 340 per slot), and the fourth at the
origin x of a new row whose y is the first row's y plus H plus the fixed gap
of 50. -/
theorem c6_wrap_layout (a b c d : String) (ta tb tc td : Table) (H : Nat)
    (ha : tableHeight ta = H) (hb : tableHeight tb = H)
    (hc : tableHeight tc = H) (hd : tableHeight td = H) :
    ((generateAll ⟨[(a, ta), (b, tb), (c, tc), (d, td)]⟩).tableCells.map
        (fun t => (t.name, t.x, t.y))) =
      [(a, 40, 40), (b, 40 + GRID_PADDING_X, 40), (c, 40 + 2 * GRID_PADDING_X, 40),
       (d, 40, 40 + H + 50)] := by
  have hH : 0 < H := by
    rw [← ha]
    unfold tableHeight ROW_HEIGHT
    omega
  simp only [generateAll, List.foldl_cons, List.foldl_nil]
  simp only [genTable_tableCells, genTable_x, genTable_y, genTable_counter,
    genTable_maxh, ha, hb, hc, hd]
  norm_num [initGenState, MAX_COLS_PER_ROW, GRID_PADDING_X, hH]

def ex6T : Table := ⟨[⟨("x"), ("integer"), false⟩], [], [], []⟩

/-- Witness for claim C6: four one-column tables (height 60 each) land at
x = 40, 380, 720 on the first row and at (40, 150) for the fourth. -/
theorem c6_wrap_layout_witness :
    ((generateAll
        ⟨[(("a"), ex6T), (("b"), ex6T), (("c"), ex6T), (("d"), ex6T)]⟩).tableCells.map
        (fun t => (t.name, t.x, t.y))) =
      [(("a"), 40, 40), (("b"), 40 + GRID_PADDING_X, 40),
       (("c"), 40 + 2 * GRID_PADDING_X, 40), (("d"), 40, 40 + 60 + 50)] :=
  c6_wrap_layout ("a") ("b") ("c") ("d") ex6T ex6T ex6T ex6T 60 rfl rfl rfl rfl

lemma genRows_len (pks : List String) (lp : Int) (cols : List Column) :
    ∀ nid idx yoff m,
      ((genRows pks lp cols nid idx yoff m).2.2).length = cols.length := by
  induction cols with
  | nil => intro nid idx yoff m; rfl
  | cons c rest ih =>
      intro nid idx yoff m
      simp [genRows, ih (nid + 4) (idx + 1) (yoff + ROW_HEIGHT) (dictInsert c.name nid m)]

lemma genRows_cells_getElem (pks : List String) (lp : Int) (cols : List Column) :
    ∀ nid idx yoff m i,
      ((genRows pks lp cols nid idx yoff m).2.2)[i]? =
        (cols[i]?).map (fun col =>
          (⟨nid + 4 * i, col.name,
            (if pks.contains col.name && (((idx + i : Nat) : Int) == lp) then
               STYLE_ROW_SEPARATOR else STYLE_ROW_NORMAL),
            yoff + ROW_HEIGHT * i⟩ : RowCell)) := by
  induction cols with
  | nil => intro nid idx yoff m i; simp [genRows]
  | cons c rest ih =>
      intro nid idx yoff m i
      cases i with
      | zero => simp [genRows]
      | succ j =>
          have e1 : nid + 4 + 4 * j = nid + 4 * (j + 1) := by omega
          have e2 : idx + 1 + j = idx + (j + 1) := by omega
          have e3 : yoff + ROW_HEIGHT + ROW_HEIGHT * j = yoff + ROW_HEIGHT * (j + 1) := by
            ring
          simp only [genRows, List.getElem?_cons_succ,
            ih (nid + 4) (idx + 1) (yoff + ROW_HEIGHT) (dictInsert c.name nid m) j,
            e1, e2, e3]

/-- Claim C7. The display ordering of a table's rows is the stable partition
of the declared column sequence by primary-key membership (primary-key columns
first, each side in declared relative order), and the separator style is given
to exactly the row at index (number of primary-key columns - 1) when at least
one primary-key column exists, every other row getting the normal style. -/
theorem c7_row_order_and_separator (cols : List Column) (pks : List String)
    (nid yoff : Nat) (m : List (String × Nat)) :
    sortedColumns cols pks
        = cols.filter (fun c => pks.contains c.name) ++
            cols.filter (fun c => !(pks.contains c.name)) ∧
    ((genRows pks (lastPkIndex cols pks) (sortedColumns cols pks) nid 0 yoff m).2.2.map
        RowCell.colName) = (sortedColumns cols pks).map Column.name ∧
    ((genRows pks (lastPkIndex cols pks) (sortedColumns cols pks) nid 0 yoff m).2.2.map
        RowCell.style)
      = (List.range cols.length).map (fun i =>
          if cols.filter (fun c => pks.contains c.name) ≠ [] ∧
              i = (cols.filter (fun c => pks.contains c.name)).length - 1 then
            STYLE_ROW_SEPARATOR
          else STYLE_ROW_NORMAL) := by
  refine ⟨sortedColumns_eq cols pks, ?_, ?_⟩
  · apply List.ext_getElem?
    intro i
    simp only [List.getElem?_map, genRows_cells_getElem]
    cases hcol : (sortedColumns cols pks)[i]? <;> simp
  · apply List.ext_getElem?
    intro i
    simp only [List.getElem?_map, genRows_cells_getElem, Nat.zero_add]
    by_cases hpk : (cols.filter (fun c => pks.contains c.name)) = []
    · have hlp : lastPkIndex cols pks = -1 := by
        unfold lastPkIndex
        rw [partitionCols_eq]
        simp only [hpk]
        rfl
      have hcond : (((i : Nat) : Int) == lastPkIndex cols pks) = false := by
        rw [hlp]
        apply beq_eq_false_iff_ne.mpr
        omega
      have hcond2 : ¬((cols.filter (fun c => pks.contains c.name)) ≠ [] ∧
          i = (cols.filter (fun c => pks.contains c.name)).length - 1) :=
        fun h => h.1 hpk
      rcases lt_or_ge i cols.length with hi | hi
      · have hi2 : i < (sortedColumns cols pks).length := by
          rwa [sortedColumns_length]
        have hr : (List.range cols.length)[i]? = some i := by simp [hi]
        rw [List.getElem?_eq_getElem hi2, hr]
        simp only [Option.map_some']
        rw [if_neg hcond2, hcond, Bool.and_false]
        rfl
      · rw [List.getElem?_eq_none (by rwa [sortedColumns_length]),
          List.getElem?_eq_none (by simpa using hi)]
        rfl
    · have hnp : 0 < (cols.filter (fun c => pks.contains c.name)).length :=
        List.length_pos.mpr hpk
      have hlp : lastPkIndex cols pks =
          ((cols.filter (fun c => pks.contains c.name)).length : Int) - 1 := by
        unfold lastPkIndex
        rw [partitionCols_eq]
        simp only [show (cols.filter (fun c => pks.contains c.name)).isEmpty = false
          from by
            cases hE : (cols.filter (fun c => pks.contains c.name)).isEmpty
            · rfl
            · exact absurd (List.isEmpty_iff.mp hE) hpk]
        rfl
      by_cases hieq : i = (cols.filter (fun c => pks.contains c.name)).length - 1
      · have hi : i < cols.length := by
          have := List.length_filter_le (fun c => pks.contains c.name) cols
          omega
        have hifilt : i < (cols.filter (fun c => pks.contains c.name)).length := by
          omega
        have hcol : (sortedColumns cols pks)[i]? =
            (cols.filter (fun c => pks.contains c.name))[i]? := by
          rw [sortedColumns_eq]
          exact List.getElem?_append_left hifilt
        have hmem : (cols.filter (fun c => pks.contains c.name))[i] ∈
            cols.filter (fun c => pks.contains c.name) := List.getElem_mem hifilt
        have hp : pks.contains
            ((cols.filter (fun c => pks.contains c.name))[i]).name = true :=
          (List.mem_filter.mp hmem).2
        have hint : (((i : Nat) : Int) == lastPkIndex cols pks) = true := by
          rw [hlp]
          apply beq_iff_eq.mpr
          omega
        have hr : (List.range cols.length)[i]? = some i := by simp [hi]
        rw [hcol, List.getElem?_eq_getElem hifilt, hr]
        simp only [Option.map_some']
        rw [if_pos (And.intro hpk hieq), hp, hint, Bool.and_self]
        rfl
      · have hint : (((i : Nat) : Int) == lastPkIndex cols pks) = false := by
          rw [hlp]
          apply beq_eq_false_iff_ne.mpr
          omega
        have hcond2 : ¬((cols.filter (fun c => pks.contains c.name)) ≠ [] ∧
            i = (cols.filter (fun c => pks.contains c.name)).length - 1) :=
          fun h => hieq h.2
        rcases lt_or_ge i cols.length with hi | hi
        · have hi2 : i < (sortedColumns cols pks).length := by
            rwa [sortedColumns_length]
          have hr : (List.range cols.length)[i]? = some i := by simp [hi]
          rw [List.getElem?_eq_getElem hi2, hr]
          simp only [Option.map_some']
          rw [if_neg hcond2, hint, Bool.and_false]
          rfl
        · rw [List.getElem?_eq_none (by rwa [sortedColumns_length]),
            List.getElem?_eq_none (by simpa using hi)]
          rfl

-- Lookup behavior of Python-dict assignment and of the row-generation map.

lemma lookup_append_single {α : Type} (k k' : String) (v : α)
    (l : List (String × α)) (h : l.any (fun p => p.1 == k) = false) :
    List.lookup k' (l ++ [(k, v)]) =
      if k' = k then some v else List.lookup k' l := by
  induction l with
  | nil =>
      by_cases hk : k' = k
      · simp [List.lookup, hk, beq_iff_eq.mpr hk]
      · simp [List.lookup, hk, beq_eq_false_iff_ne.mpr hk]
  | cons q t ih =>
      obtain ⟨q1, q2⟩ := q
      simp only [List.any_cons, Bool.or_eq_false_iff] at h
      obtain ⟨hq, ht⟩ := h
      have hq1 : q1 ≠ k := by simpa using hq
      by_cases hkq : k' = q1
      · have hkk : k' ≠ k := fun hc => hq1 (hkq ▸ hc)
        simp [List.lookup, beq_iff_eq.mpr hkq, hkk, ih ht]
      · simp [List.lookup, beq_eq_false_iff_ne.mpr hkq, ih ht]

lemma lookup_map_replace {α : Type} (k k' : String) (v : α)
    (l : List (String × α)) :
    List.lookup k' (l.map (fun p => if p.1 = k then (k, v) else p)) =
      if k' = k then (if l.any (fun p => p.1 == k) then some v else none)
      else List.lookup k' l := by
  induction l with
  | nil =>
      by_cases hk : k' = k <;> simp [List.lookup, hk]
  | cons q t ih =>
      obtain ⟨q1, q2⟩ := q
      rw [List.map_cons]
      by_cases hq : q1 = k
      · rw [if_pos (show (q1, q2).1 = k from hq)]
        by_cases hk : k' = k
        · have hany : (((q1, q2) :: t).any (fun p => p.1 == k)) = true := by
            simp [List.any_cons, beq_iff_eq.mpr hq]
          simp only [List.lookup_cons, beq_iff_eq.mpr hk, if_pos hk, hany,
            if_pos rfl, if_true]
        · have hkq : k' ≠ q1 := fun hc => hk (hc.trans hq)
          simp only [List.lookup_cons, beq_false_of_ne hk, beq_false_of_ne hkq,
            if_neg hk, ih]
      · rw [if_neg (show ¬(q1, q2).1 = k from hq)]
        by_cases hkq : k' = q1
        · have hk : k' ≠ k := fun hc => hq ((hkq.symm.trans hc))
          simp only [List.lookup_cons, beq_iff_eq.mpr hkq, if_neg hk]
        · simp only [List.lookup_cons, beq_false_of_ne hkq, ih]
          by_cases hk : k' = k
          · have hanyq : (((q1, q2) :: t).any (fun p => p.1 == k)) =
                (t.any (fun p => p.1 == k)) := by
              simp [List.any_cons, beq_false_of_ne hq]
            rw [if_pos hk, if_pos hk, hanyq]
          · rw [if_neg hk, if_neg hk]

lemma lookup_dictInsert {α : Type} (k k' : String) (v : α)
    (l : List (String × α)) :
    List.lookup k' (dictInsert k v l) =
      if k' = k then some v else List.lookup k' l := by
  unfold dictInsert
  by_cases hany : l.any (fun p => p.1 == k) = true
  · rw [if_pos hany, lookup_map_replace, hany]
    by_cases hk : k' = k <;> simp [hk]
  · have hany2 : l.any (fun p => p.1 == k) = false := by
      cases h : l.any (fun p => p.1 == k)
      · rfl
      · exact absurd h hany
    rw [if_neg hany, lookup_append_single k k' v l hany2]

-- Index of the last occurrence of a column name in a declared column list.

def lastIdxOf (c : String) : List Column → Option Nat
  | [] => none
  | col :: rest =>
      match lastIdxOf c rest with
      | some j => some (j + 1)
      | none => if col.name = c then some 0 else none

lemma lastIdxOf_eq_none (c : String) (l : List Column)
    (h : ∀ x ∈ l, x.name ≠ c) : lastIdxOf c l = none := by
  induction l with
  | nil => rfl
  | cons a t ih =>
      have ht : lastIdxOf c t = none :=
        ih (fun x hx => h x (List.mem_cons_of_mem a hx))
      simp [lastIdxOf, ht, h a (List.mem_cons_self a t)]

lemma lastIdxOf_append (c : String) (l1 : List Column) (col : Column)
    (l2 : List Column) (hcol : col.name = c) (h2 : ∀ x ∈ l2, x.name ≠ c) :
    lastIdxOf c (l1 ++ col :: l2) = some l1.length := by
  induction l1 with
  | nil => simp [lastIdxOf, lastIdxOf_eq_none c l2 h2, hcol]
  | cons a t ih => simp [lastIdxOf, ih]

lemma genRows_lookup (pks : List String) (lp : Int) (cols : List Column) :
    ∀ (nid idx yoff : Nat) (m : List (String × Nat)) (c : String),
      List.lookup c (genRows pks lp cols nid idx yoff m).2.1 =
        (match lastIdxOf c cols with
         | some j => some (nid + 4 * j)
         | none => List.lookup c m) := by
  induction cols with
  | nil => intro nid idx yoff m c; rfl
  | cons col rest ih =>
      intro nid idx yoff m c
      show List.lookup c
          (genRows pks lp rest (nid + 4) (idx + 1) (yoff + ROW_HEIGHT)
            (dictInsert col.name nid m)).2.1 = _
      rw [ih (nid + 4) (idx + 1) (yoff + ROW_HEIGHT) (dictInsert col.name nid m) c]
      cases hl : lastIdxOf c rest with
      | some j =>
          have e1 : nid + 4 + 4 * j = nid + 4 * (j + 1) := by omega
          simp [lastIdxOf, hl, e1]
      | none =>
          rw [lookup_dictInsert]
          by_cases hc : col.name = c
          · simp [lastIdxOf, hl, hc]
          · have hc2 : c ≠ col.name := fun h => hc h.symm
            simp [lastIdxOf, hl, hc, hc2]

def ex10S : PostgresSchema :=
  ⟨[(("t"), ⟨[⟨("x"), ("integer"), false⟩, ⟨("x"), ("bigint"), true⟩], [],
      [(("x"), ("p"))], []⟩),
    (("p"), ⟨[⟨("pid"), ("integer"), true⟩], [("pid")], [], []⟩)]⟩

/-- Claim C10. When a table declares two or more columns with the same name,
the per-table column-to-row map is built by plain dict assignment, so each
occurrence overwrites the previous one: looking up the name yields the row id
generated for the last occurrence (id nid + 4*j for the column at iteration
index j), while `find?`-based column-info lookup returns the first occurrence.
The concrete schema `ex10S` shows this end to end: the duplicated foreign-key
column "x" produces rows 2 and 6, the emitted edge's source anchor is row 6
(the last occurrence), and the cardinality label "0..1" comes from the first
occurrence's not-null flag (false) even though the last occurrence is NOT
NULL. -/
theorem c10_duplicate_column_anchors :
    (∀ (pks : List String) (lp : Int) (nid idx yoff : Nat)
        (m : List (String × Nat)) (c : String) (l1 : List Column) (col : Column)
        (l2 : List Column), col.name = c → (∀ x ∈ l2, x.name ≠ c) →
        List.lookup c (genRows pks lp (l1 ++ col :: l2) nid idx yoff m).2.1 =
          some (nid + 4 * l1.length)) ∧
    (∀ (c : String) (l1 : List Column) (col : Column) (l2 : List Column),
        col.name = c → (∀ x ∈ l1, x.name ≠ c) →
        (l1 ++ col :: l2).find? (fun cl => cl.name == c) = some col) ∧
    (List.lookup ("x")
          ((List.lookup ("t") (generateAll ex10S).tableColIdMap).getD [])
        = some 6 ∧
      (generateAll ex10S).rowCells.map (fun rc => (rc.1, rc.2.rid, rc.2.colName))
        = [(("t"), 2, ("x")), (("t"), 6, ("x")), (("p"), 11, ("pid"))] ∧
      Except.map (fun pr => pr.2.map (fun e => (e.source, e.label_target)))
          (runDiagram ex10S) = Except.ok [(6, ("0..1"))] ∧
      get_column_info ex10S ("t") ("x") = some ⟨("x"), ("integer"), false⟩) := by
  refine ⟨?_, ?_, by decide, by decide, by rfl, by decide⟩
  · intro pks lp nid idx yoff m c l1 col l2 hcol h2
    rw [genRows_lookup, lastIdxOf_append c l1 col l2 hcol h2]
  · intro c l1
    induction l1 with
    | nil =>
        intro col l2 hcol _
        simp [List.find?, beq_iff_eq.mpr hcol]
    | cons a t ih =>
        intro col l2 hcol h1
        have ha : a.name ≠ c := h1 a (List.mem_cons_self a t)
        have hrest := ih col l2 hcol (fun x hx => h1 x (List.mem_cons_of_mem a hx))
        simpa [List.find?, beq_false_of_ne ha] using hrest

/-- Witness for claim C10, at the duplicated column list of `ex10S`'s table
"t": the map lookup returns the last occurrence's row id 6 and `find?` returns
the first occurrence. -/
theorem c10_duplicate_column_anchors_witness :
    List.lookup ("x")
        (genRows [] (-1)
          [⟨("x"), ("integer"), false⟩, ⟨("x"), ("bigint"), true⟩] 2 0 30 []).2.1
      = some 6 ∧
    [(⟨("x"), ("integer"), false⟩ : Column), ⟨("x"), ("bigint"), true⟩].find?
        (fun cl => cl.name == ("x")) = some ⟨("x"), ("integer"), false⟩ :=
  ⟨by
    have h := c10_duplicate_column_anchors.1 [] (-1) 2 0 30 [] ("x")
      [⟨("x"), ("integer"), false⟩] ⟨("x"), ("bigint"), true⟩ [] rfl (by decide)
    simpa using h,
   c10_duplicate_column_anchors.2.1 ("x") [] ⟨("x"), ("integer"), false⟩
     [⟨("x"), ("bigint"), true⟩] rfl (by decide)⟩
